import Mathlib

/-!
# Verification of the `jack_midi_looper` scheduler and MIDI importer

Shallow embedding of `jack_midi_looper` (files `looper.py`, `loops.py`,
`__init__.py`) in Lean 4, with theorems settling the frozen claims about the
real-time loop scheduler and the MIDI import/timing normalizer.

Modelling conventions:
* Python floats carry musical time (beats, seconds); they are modelled as `ℚ`
  with exact arithmetic.
* Python `int(x)` (truncation toward zero) is `pyInt`; `math.ceil` is `rceil`.
* A raised Python exception is modelled as `Option`/`Except` failure, or, for
  the mutating `Looper` operations, as a `Looper × Option String` pair whose
  second component is the raised message and whose first component is the
  (possibly partially mutated) object state at the moment of the raise.
* The unbounded `while True:` loop of `play_process_callback` is modelled with
  explicit fuel; `none` means the loop did not finish within the given fuel.
-/

/-- Python `int()` applied to a rational: truncation toward zero. -/
def pyInt (q : ℚ) : ℤ := q.num.tdiv (q.den : ℤ)

/-- Python `math.ceil` applied to a rational: least integer `≥ q`. -/
def rceil (q : ℚ) : ℤ := -((-q.num).fdiv (q.den : ℤ))

/-- One scheduled MIDI event: `EVENT_STRUCT = np.dtype([('beat', float),
('msg', np.uint8, 3)])`.  The message is kept as a byte list. -/
structure Event where
  beat : ℚ
  msg : List ℕ
deriving DecidableEq, Repr

/-- `Loop` (`loops.py`).  The `loop_group`/`name` strings play no role in any
claim and are omitted; `_beat_offset` and `play` are as in `__init__`. -/
structure Loop where
  loop_id : ℕ
  beats_per_measure : ℕ
  measures : ℕ
  events : List Event
  beat_offset : ℚ
  play : Bool
deriving DecidableEq, Repr

/-- `Loop.last_beat`: `self.events[-1]['beat']`.  Indexing `[-1]` on an empty
array raises `IndexError`, modelled by `none`. -/
def Loop.last_beat (l : Loop) : Option ℚ :=
  (l.events.getLast?).map Event.beat

/-- `Loop.event_count`: `len(self.events)`. -/
def Loop.event_count (l : Loop) : ℕ := l.events.length

/-- `Loop.events_between(start, end)`: events whose beat is `>= start` and
`< end` (numpy boolean mask keeps the original order). -/
def Loop.events_between (l : Loop) (start stop : ℚ) : List Event :=
  l.events.filter (fun e => decide (start ≤ e.beat ∧ e.beat < stop))

/-- The `beat_offset` property setter: `self.events['beat'] += (val -
self._beat_offset); self._beat_offset = val`. -/
def Loop.set_beat_offset (l : Loop) (val : ℚ) : Loop :=
  { l with
    events := l.events.map (fun e => { e with beat := e.beat + (val - l.beat_offset) }),
    beat_offset := val }

example : pyInt (5/2) = 2 := by norm_num [pyInt]; decide
example : pyInt (-5/2) = -2 := by norm_num [pyInt]; decide
example : rceil (5/2) = 3 := by norm_num [rceil]; decide
example : rceil (-1/2) = 0 := by norm_num [rceil]; decide
example : rceil 2 = 2 := by norm_num [rceil]

/-! ## MIDI importer (`Loops.read_midi_file`)

The importer iterates the messages of a `mido.MidiFile`.  Each yielded message
carries `time`, its delta in seconds since the previous message; the code
processes the message first and adds the delta afterwards.  Only the message
attributes the code reads are modelled. -/

/-- The kinds of MIDI message `read_midi_file` distinguishes.  A `note_on`
carries `msg.note` and `msg.bytes()`; a `set_tempo` carries `msg.tempo`
(microseconds per beat); a `time_signature` carries numerator/denominator.
Every other message type is `other`. -/
inductive MsgKind where
  | set_tempo (tempo : ℚ)
  | time_signature (numerator denominator : ℕ)
  | note_on (note : ℕ) (bytes : List ℕ)
  | other
deriving DecidableEq, Repr

/-- One message yielded by iterating the `MidiFile`:  a kind plus the
inter-message delta `msg.time` in seconds. -/
structure Msg where
  kind : MsgKind
  time : ℚ
deriving DecidableEq, Repr

def Msg.isNoteOn (m : Msg) : Bool :=
  match m.kind with
  | .note_on _ _ => true
  | _ => false

def Msg.isSetTempo (m : Msg) : Bool :=
  match m.kind with
  | .set_tempo _ => true
  | _ => false

/-- The running variables of `read_midi_file`'s second pass. -/
structure ImpState where
  usecs_per_beat : ℚ
  beats_per_measure : ℚ
  seconds_per_beat : ℚ
  seconds_per_measure : ℚ
  time : ℚ
  measure : ℤ
  pitches : List ℕ
  events : List Event
deriving DecidableEq, Repr

def DEFAULT_USECS_PER_BEAT : ℚ := 500000
def USECS_PER_SECOND : ℚ := 1000000
def DEFAULT_BEATS_PER_MEASURE : ℚ := 4

/-- Initial running variables of `read_midi_file`. -/
def impInit : ImpState :=
  { usecs_per_beat := DEFAULT_USECS_PER_BEAT
    beats_per_measure := DEFAULT_BEATS_PER_MEASURE
    seconds_per_beat := DEFAULT_USECS_PER_BEAT / USECS_PER_SECOND
    seconds_per_measure := DEFAULT_USECS_PER_BEAT / USECS_PER_SECOND * DEFAULT_BEATS_PER_MEASURE
    time := 0
    measure := 0
    pitches := []
    events := [] }

/-- The body of `read_midi_file`'s message loop for one message.  `.error`
models a raised `ZeroDivisionError` (Python raises on division by zero for
both int and float operands).  The two-pass structure of the source (count
note-ons to size the numpy array, then fill it) is modelled by appending each
filled entry to `events`; the filled array equals that list. -/
def importStep (s : ImpState) (m : Msg) : Except String ImpState :=
  match m.kind with
  | .set_tempo tempo =>
      .ok { s with
        usecs_per_beat := tempo
        seconds_per_beat := tempo / USECS_PER_SECOND
        seconds_per_measure := tempo / USECS_PER_SECOND * s.beats_per_measure
        time := s.time + m.time }
  | .time_signature numerator denominator =>
      if denominator = 0 then .error "ZeroDivisionError" else
      .ok { s with
        beats_per_measure := (numerator : ℚ) * 4 / (denominator : ℚ)
        seconds_per_measure := s.seconds_per_beat * ((numerator : ℚ) * 4 / (denominator : ℚ))
        time := s.time + m.time }
  | .note_on note bytes =>
      if s.seconds_per_measure = 0 then .error "ZeroDivisionError" else
      if s.seconds_per_beat = 0 then .error "ZeroDivisionError" else
      .ok { s with
        measure := pyInt (s.time / s.seconds_per_measure)
        events := s.events ++ [⟨s.time / s.seconds_per_beat, bytes⟩]
        pitches := s.pitches ++ [note]
        time := s.time + m.time }
  | .other =>
      .ok { s with time := s.time + m.time }

def importLoop : List Msg → ImpState → Except String ImpState
  | [], s => .ok s
  | m :: ms, s =>
    match importStep s m with
    | .ok s2 => importLoop ms s2
    | .error e => .error e

/-- What `read_midi_file` returns:  `int(beats_per_measure), measure + 1,
set(pitches), events`.  Python's `set(pitches)` is modelled by deduplicating
the collected pitch list. -/
structure ImportResult where
  beats_per_measure : ℤ
  measures : ℤ
  pitches : List ℕ
  events : List Event
deriving DecidableEq, Repr

/-- `Loops.read_midi_file`, over an already-parsed message list. -/
def read_midi_file (msgs : List Msg) : Except String ImportResult :=
  (importLoop msgs impInit).map fun s =>
    ⟨pyInt s.beats_per_measure, s.measure + 1, s.pitches.dedup, s.events⟩

/-- `events` is non-decreasing in `beat` (adjacent pairs ordered). -/
def beatsNondecreasing (es : List Event) : Prop :=
  List.Chain' (fun a b => a.beat ≤ b.beat) es

/-! ## The `Looper` transport (`looper.py`) -/

/-- `Looper.INACTIVE` / `Looper.PLAYING`. -/
inductive LState where
  | INACTIVE
  | PLAYING
deriving DecidableEq, Repr

/-- Which bound method `self.__real_process_callback` currently holds. -/
inductive CallbackKind where
  | nullCB
  | playCB
  | stopCB
deriving DecidableEq, Repr

/-- One call to `out_port.write_midi_event(offset, msg)`. -/
structure Out where
  offset : ℤ
  msg : List ℕ
deriving DecidableEq, Repr

/-- The `Looper` object.  `last_beat` is the measure-aligned cycle length
maintained by `remeasure`; `callback` is `__real_process_callback`;
`samples_per_beat`/`beats_per_process` are the constants set by `rescale`. -/
structure Looper where
  bpm : ℚ
  beats_per_measure : Option ℕ
  beat : ℚ
  last_beat : ℚ
  loops : List Loop
  state : LState
  callback : CallbackKind
  samples_per_beat : ℚ
  beats_per_process : ℚ
deriving DecidableEq, Repr

/-- `Looper.any_loop_active`. -/
def Looper.any_loop_active (st : Looper) : Bool :=
  st.loops.any (fun l => l.play)

/-- Evaluate a list of optional values to an optional list (the Python list
comprehension `[loop.last_beat for loop in self.loops]`, which propagates a
raise from any element). -/
def optionList : List (Option ℚ) → Option (List ℚ)
  | [] => some []
  | none :: _ => none
  | some a :: os => (optionList os).map (fun l => a :: l)

/-- `Looper.remeasure`.  `none` models a raise:  `loop.last_beat` on a loop
with no events (`IndexError`), a `None` `beats_per_measure` (`TypeError`), or
division by a zero `beats_per_measure` (`ZeroDivisionError`). -/
def Looper.remeasure (st : Looper) : Option Looper :=
  if st.loops.isEmpty then
    some { st with beat := 0, last_beat := 0 }
  else do
    let lbs ← optionList (st.loops.map Loop.last_beat)
    let lb ← lbs.max?
    let b ← st.beats_per_measure
    if b = 0 then none else
    let nlb : ℚ := (rceil (lb / (b : ℚ)) : ℚ) * (b : ℚ)
    some { st with
      last_beat := nlb
      beat := if st.beat > nlb then 0 else st.beat }

/-- `Looper.stop`:  request a stop; the drain happens on the next block. -/
def Looper.stop (st : Looper) : Looper :=
  if st.state = .INACTIVE then st else { st with callback := .stopCB }

/-- `Looper.play`. -/
def Looper.play (st : Looper) : Looper :=
  if st.state = .PLAYING then st
  else { st with callback := .playCB, state := .PLAYING }

/-- `Pause.__exit__`:  restart the looper if it had been `PLAYING` when the
`Pause` was constructed. -/
def pauseExit (prev : LState) (st : Looper) : Looper :=
  if prev = .PLAYING then st.play else st

/-- The `with Pause(self):` body shared by `append_loop` and `extend_loops`:
record the prior state, `stop()`, run the mutation, `remeasure()`, and run
`Pause.__exit__` (which also runs when `remeasure` raises, since context
managers exit on exceptions; the raise is propagated in the second
component). -/
def pauseAndMutate (st : Looper) (mutate : Looper → Looper) : Looper × Option String :=
  let prev := st.state
  let st1 := mutate st.stop
  match st1.remeasure with
  | some st2 => (pauseExit prev st2, none)
  | none => (pauseExit prev st1, some "remeasure raised")

/-- `Looper.append_loop`. -/
def Looper.append_loop (st : Looper) (l : Loop) : Looper × Option String :=
  match st.beats_per_measure with
  | some b =>
    if l.beats_per_measure ≠ b then (st, some "beats_per_measure mismatch")
    else pauseAndMutate st (fun s =>
      { s with beats_per_measure := some l.beats_per_measure, loops := s.loops ++ [l] })
  | none =>
    pauseAndMutate st (fun s =>
      { s with beats_per_measure := some l.beats_per_measure, loops := s.loops ++ [l] })

/-- `Looper.extend_loops`.  When `beats_per_measure` is `None` it is assigned
from the first loop of the list *before* the mismatch check, so that
assignment survives a mismatch raise; `loop_list[0]` on an empty list raises
`IndexError`. -/
def Looper.extend_loops (st : Looper) (ls : List Loop) : Looper × Option String :=
  match st.beats_per_measure with
  | none =>
    match ls with
    | [] => (st, some "IndexError")
    | l0 :: _ =>
      let st1 := { st with beats_per_measure := some l0.beats_per_measure }
      if ls.any (fun l => l.beats_per_measure ≠ l0.beats_per_measure) then
        (st1, some "beats_per_measure mismatch")
      else pauseAndMutate st1 (fun s => { s with loops := s.loops ++ ls })
  | some b =>
    if ls.any (fun l => l.beats_per_measure ≠ b) then
      (st, some "beats_per_measure mismatch")
    else pauseAndMutate st (fun s => { s with loops := s.loops ++ ls })

/-- `Looper.clear`. -/
def Looper.clear (st : Looper) : Looper :=
  { st.stop with loops := [], beats_per_measure := none }

/-- `Looper.rescale`, given the client's sample rate and block size. -/
def Looper.rescale (st : Looper) (samplerate blocksize : ℚ) : Looper :=
  let beats_per_second := st.bpm / 60
  { st with
    samples_per_beat := samplerate / beats_per_second
    beats_per_process := beats_per_second * (blocksize / samplerate) }

/-! ### The per-block advance -/

/-- Insert an event into a beat-sorted list, keeping it sorted. -/
def insertByBeat (e : Event) : List Event → List Event
  | [] => [e]
  | x :: xs => if e.beat < x.beat then e :: x :: xs else x :: insertByBeat e xs

/-- `np.sort(..., kind="heapsort", order="beat")`:  a comparison sort on the
`beat` field (heapsort's tie order is unspecified; no claim depends on tie
order, so insertion sort stands in for it). -/
def sortByBeat : List Event → List Event
  | [] => []
  | e :: es => insertByBeat e (sortByBeat es)

/-- `np.hstack` of `events_between(beat, last_beat)` over the armed loops. -/
def Looper.gather (st : Looper) (start stop : ℚ) : List Event :=
  ((st.loops.filter (fun l => l.play)).map (fun l => l.events_between start stop)).flatten

/-- The emission of one pass of the `while True:` loop:  sort the gathered
events by beat, and write each at offset `int((beat - self.beat) *
samples_per_beat)`. -/
def emitPass (origin spb : ℚ) (evts : List Event) : List Out :=
  (sortByBeat evts).map (fun e => ⟨pyInt ((e.beat - origin) * spb), e.msg⟩)

/-- The `while True:` loop of `play_process_callback`, with fuel.  `wend` is
the loop-local `last_beat` variable; `none` means the loop did not exit within
`fuel` iterations. -/
def playWhile (st : Looper) (wend : ℚ) (acc : List Out) : ℕ → Option (Looper × List Out)
  | 0 => none
  | (fuel+1) =>
    let acc2 := acc ++ emitPass st.beat st.samples_per_beat (st.gather st.beat wend)
    if wend < st.last_beat then some ({ st with beat := wend }, acc2)
    else playWhile { st with beat := 0 } (wend - st.last_beat) acc2 fuel

/-- `Looper.play_process_callback`.  Returns the final state and the sequence
of MIDI writes made to the (cleared) output buffer. -/
def Looper.play_process_callback (st : Looper) (fuel : ℕ) : Option (Looper × List Out) :=
  if st.any_loop_active then playWhile st (st.beat + st.beats_per_process) [] fuel
  else some (st, [])

/-- `Looper.stop_process_callback`:  `msg = bytearray.fromhex('B07B')` (two
bytes), written at offset 0 for each channel with `msg[0] += 1` in between;
then `beat = 0`, the null callback is installed, and the state becomes
`INACTIVE`. -/
def Looper.stop_process_callback (st : Looper) : Looper × List Out :=
  ({ st with beat := 0, callback := .nullCB, state := .INACTIVE },
   (List.range 16).map (fun channel => ⟨0, [0xB0 + channel, 0x7B]⟩))

/-- `Looper.null_process_callback`. -/
def Looper.null_process_callback (st : Looper) : Looper × List Out :=
  (st, [])

/-- `Looper.process_callback`:  dispatch on `__real_process_callback`. -/
def Looper.process_callback (st : Looper) (fuel : ℕ) : Option (Looper × List Out) :=
  match st.callback with
  | .nullCB => some st.null_process_callback
  | .playCB => st.play_process_callback fuel
  | .stopCB => some st.stop_process_callback

/-! ## Helper lemmas -/

lemma length_insertByBeat (e : Event) (l : List Event) :
    (insertByBeat e l).length = l.length + 1 := by
  induction l with
  | nil => rfl
  | cons x xs ih =>
      rw [insertByBeat]
      split
      · rfl
      · simp [List.length_cons, ih]

lemma length_sortByBeat (l : List Event) :
    (sortByBeat l).length = l.length := by
  induction l with
  | nil => rfl
  | cons e es ih => rw [sortByBeat, length_insertByBeat, ih, List.length_cons]

lemma length_emitPass (origin spb : ℚ) (evts : List Event) :
    (emitPass origin spb evts).length = evts.length := by
  rw [emitPass, List.length_map, length_sortByBeat]

/-- All the events of the armed loops, in loop order. -/
def armedEvents (st : Looper) : List Event :=
  ((st.loops.filter (fun l => l.play)).map Loop.events).flatten

lemma flatten_filter (p : Event → Bool) (xss : List (List Event)) :
    (xss.map (List.filter p)).flatten = (xss.flatten).filter p := by
  induction xss with
  | nil => rfl
  | cons xs rest ih =>
      rw [List.map_cons, List.flatten_cons, List.flatten_cons, List.filter_append, ih]

lemma gather_eq_filter_armedEvents (st : Looper) (a b : ℚ) :
    st.gather a b
      = (armedEvents st).filter (fun e => decide (a ≤ e.beat ∧ e.beat < b)) := by
  rw [Looper.gather, armedEvents, ← flatten_filter, List.map_map]
  rfl

lemma countP_or_of_disjoint (p q : Event → Bool) (l : List Event)
    (h : ∀ x ∈ l, ¬(p x = true ∧ q x = true)) :
    l.countP (fun x => p x || q x) = l.countP p + l.countP q := by
  induction l with
  | nil => rfl
  | cons x xs ih =>
      have hx := h x (List.mem_cons_self x xs)
      have hxs : ∀ y ∈ xs, ¬(p y = true ∧ q y = true) :=
        fun y hy => h y (List.mem_cons_of_mem x hy)
      rw [List.countP_cons, List.countP_cons, List.countP_cons, ih hxs]
      cases hp : p x with
      | true =>
          have hq : q x = false := by
            cases hq0 : q x
            · rfl
            · exact absurd ⟨hp, hq0⟩ hx
          simp [hp, hq]
          omega
      | false =>
          cases hq : q x
          · simp [hp, hq]
          · simp [hp, hq]
            omega

/-! ## Concrete fixtures for the claims -/

/-- A loop holding one note-on event at beat `5/2`, 4 beats per measure,
armed. -/
def loopA : Loop :=
  { loop_id := 1, beats_per_measure := 4, measures := 1,
    events := [⟨5/2, [0x90, 60, 100]⟩], beat_offset := 0, play := true }

/-- A loop with 3 beats per measure (used for mismatch scenarios). -/
def loopB3 : Loop :=
  { loop_id := 2, beats_per_measure := 3, measures := 1,
    events := [⟨1, [0x90, 61, 100]⟩], beat_offset := 0, play := true }

/-- A loop whose event array is empty. -/
def loopEmpty : Loop :=
  { loop_id := 3, beats_per_measure := 4, measures := 1,
    events := [], beat_offset := 0, play := false }

/-- A loop with 4 beats per measure and one event at beat 2, armed. -/
def loopC : Loop :=
  { loop_id := 4, beats_per_measure := 4, measures := 1,
    events := [⟨2, [0x90, 62, 100]⟩], beat_offset := 0, play := true }

/-- A loop whose only event sits at beat 0, armed:  its `last_beat` is 0, so
`remeasure` derives a zero cycle length from it. -/
def loopZ : Loop :=
  { loop_id := 5, beats_per_measure := 4, measures := 1,
    events := [⟨0, [0x90, 36, 100]⟩], beat_offset := 0, play := true }

/-- A freshly constructed `Looper(test=True)`:  INACTIVE, no loops, the
`rescale` constants of the 48000 Hz / 1024-frame fake client at 120 bpm. -/
def looper0 : Looper :=
  { bpm := 120, beats_per_measure := none, beat := 0, last_beat := 0,
    loops := [], state := .INACTIVE, callback := .nullCB,
    samples_per_beat := 24000, beats_per_process := 16/375 }

/-- A playing looper holding the armed `loopA`, mid-cycle. -/
def looperP : Looper :=
  { bpm := 120, beats_per_measure := some 4, beat := 1, last_beat := 4,
    loops := [loopA], state := .PLAYING, callback := .playCB,
    samples_per_beat := 2, beats_per_process := 1 }

/-- A playing looper whose cycle length is 0 (only `loopZ` is loaded, whose
single event is at beat 0) with an armed loop. -/
def looperZ : Looper :=
  { bpm := 120, beats_per_measure := some 4, beat := 0, last_beat := 0,
    loops := [loopZ], state := .PLAYING, callback := .playCB,
    samples_per_beat := 24000, beats_per_process := 16/375 }

/-- A playing looper about to wrap:  cycle length 4, beat 2, and a block of 6
beats (`beats_per_process > cycle_length`). -/
def looperW : Looper :=
  { bpm := 120, beats_per_measure := some 4, beat := 2, last_beat := 4,
    loops := [loopA], state := .PLAYING, callback := .playCB,
    samples_per_beat := 2, beats_per_process := 6 }

/-! ## Further helper lemmas -/

lemma set_beat_offset_events (l : Loop) (v : ℚ) :
    (l.set_beat_offset v).events
      = l.events.map (fun e => Event.mk (e.beat + (v - l.beat_offset)) e.msg) := rfl

lemma set_beat_offset_value (l : Loop) (v : ℚ) :
    (l.set_beat_offset v).beat_offset = v := rfl

lemma map_beat_add (a b : ℚ) (es : List Event) :
    (es.map (fun e => Event.mk (e.beat + a) e.msg)).map
        (fun e => Event.mk (e.beat + b) e.msg)
      = es.map (fun e => Event.mk (e.beat + (a + b)) e.msg) := by
  induction es with
  | nil => rfl
  | cons e es ih => simp [ih, add_assoc]

lemma map_mk_eta (es : List Event) :
    es.map (fun e => Event.mk e.beat e.msg) = es := by
  induction es with
  | nil => rfl
  | cons e es ih => rw [List.map_cons, ih]

/-! ## Claims C8, C9, C10 -/

/-- C8 counterexample:  the claim says `last_beat` never raises and returns 0
for an empty event array, but `self.events[-1]` raises `IndexError` (modelled
`none`) on the concrete loop `loopEmpty`. -/
theorem last_beat_raises_on_empty_events :
    loopEmpty.last_beat = none ∧ loopEmpty.last_beat ≠ some 0 := by
  constructor <;> simp [Loop.last_beat, loopEmpty]

/-- C8 (amended):  reading `last_beat` on a loop with a non-empty event array
returns the beat of the final event; on an empty array it raises `IndexError`
rather than returning 0. -/
theorem last_beat_returns_final_event_beat (l : Loop) (es : List Event) (e : Event)
    (h : l.events = es ++ [e]) : l.last_beat = some e.beat := by
  rw [Loop.last_beat, h, List.getLast?_concat]
  rfl

theorem last_beat_returns_final_event_beat_witness :
    loopA.last_beat = some (5/2) :=
  last_beat_returns_final_event_beat loopA [] ⟨5/2, [0x90, 60, 100]⟩ rfl

/-- C9:  `set_beat_offset x` twice leaves the events exactly as one call
leaves them (no double shift); `set_beat_offset 0` after `set_beat_offset x`
puts every event back at its un-offset beat (`beat - beat_offset`), which is
its original beat whenever the loop's current offset is 0 — exact rational
arithmetic throughout. -/
theorem set_beat_offset_idempotent_and_restores (l : Loop) (x : ℚ) :
    ((l.set_beat_offset x).set_beat_offset x).events = (l.set_beat_offset x).events ∧
    ((l.set_beat_offset x).set_beat_offset x).beat_offset
      = (l.set_beat_offset x).beat_offset ∧
    ((l.set_beat_offset x).set_beat_offset 0).events
      = l.events.map (fun e => Event.mk (e.beat - l.beat_offset) e.msg) ∧
    (l.beat_offset = 0 →
      ((l.set_beat_offset x).set_beat_offset 0).events = l.events) := by
  have h1 : ((l.set_beat_offset x).set_beat_offset x).events
      = l.events.map (fun e =>
          Event.mk (e.beat + ((x - l.beat_offset) + (x - x))) e.msg) := by
    rw [set_beat_offset_events, set_beat_offset_value, set_beat_offset_events,
      map_beat_add]
  have h0 : ((l.set_beat_offset x).set_beat_offset 0).events
      = l.events.map (fun e =>
          Event.mk (e.beat + ((x - l.beat_offset) + (0 - x))) e.msg) := by
    rw [set_beat_offset_events, set_beat_offset_value, set_beat_offset_events,
      map_beat_add]
  refine ⟨?_, rfl, ?_, ?_⟩
  · rw [h1, set_beat_offset_events]
    simp
  · rw [h0]
    have harith : ∀ e : Event, e.beat + ((x - l.beat_offset) + (0 - x))
        = e.beat - l.beat_offset := by intro e; ring
    simp only [harith]
  · intro hz
    rw [h0, hz]
    have harith : ∀ e : Event, e.beat + ((x - 0) + (0 - x)) = e.beat := by
      intro e; ring
    simp only [harith, map_mk_eta]

theorem set_beat_offset_idempotent_and_restores_witness :
    ((loopA.set_beat_offset 4).set_beat_offset 4).events
      = (loopA.set_beat_offset 4).events ∧
    ((loopA.set_beat_offset 4).set_beat_offset 0).events = loopA.events :=
  ⟨(set_beat_offset_idempotent_and_restores loopA 4).1,
   (set_beat_offset_idempotent_and_restores loopA 4).2.2.2 rfl⟩

/-- C10:  `stop()` on a PLAYING looper changes only the installed per-block
behavior:  the result is the original looper with just `callback := stopCB`,
so `state` still reads PLAYING and `beat`, `loops`, `beats_per_measure`,
`last_beat` keep their values; the next per-block advance then drains (all
notes off), resets `beat` to 0 and sets the state to INACTIVE. -/
theorem stop_changes_only_installed_callback (st : Looper) (fuel : ℕ)
    (h : st.state = .PLAYING) :
    st.stop = { st with callback := .stopCB } ∧
    st.stop.state = .PLAYING ∧
    st.stop.beat = st.beat ∧
    st.stop.loops = st.loops ∧
    st.stop.beats_per_measure = st.beats_per_measure ∧
    st.stop.last_beat = st.last_beat ∧
    st.stop.process_callback fuel =
      some ({ st with callback := .nullCB, state := .INACTIVE, beat := 0 },
        (List.range 16).map (fun channel => ⟨0, [0xB0 + channel, 0x7B]⟩)) := by
  have hs : st.stop = { st with callback := .stopCB } := by
    rw [Looper.stop, if_neg]
    rw [h]
    intro hcon
    cases hcon
  refine ⟨hs, ?_, ?_, ?_, ?_, ?_, ?_⟩ <;> rw [hs] <;> first | rfl | rw [h]

theorem stop_changes_only_installed_callback_witness :
    looperP.stop = { looperP with callback := .stopCB } ∧
    looperP.stop.process_callback 1 =
      some ({ looperP with callback := .nullCB, state := .INACTIVE, beat := 0 },
        (List.range 16).map (fun channel => ⟨0, [0xB0 + channel, 0x7B]⟩)) :=
  ⟨(stop_changes_only_installed_callback looperP 1 rfl).1,
   (stop_changes_only_installed_callback looperP 1 rfl).2.2.2.2.2.2⟩

/-! ## Claims C3, C2 -/

/-- C3:  from PLAYING, `stop()` then one block emits exactly 16 all-notes-off
writes at offset 0 in channel order 0..15 and resets `beat` to 0 with state
INACTIVE — but each written message is the TWO-byte `(0xB0+ch, 0x7B)`
(`bytearray.fromhex('B07B')`), not the three-byte `(0xB0+ch, 0x7B, 0x00)` the
claim states. -/
theorem stop_drain_emits_two_byte_all_notes_off :
    looperP.stop.process_callback 1
      = some ({ looperP with callback := .nullCB, state := .INACTIVE, beat := 0 },
          (List.range 16).map (fun channel => ⟨0, [0xB0 + channel, 0x7B]⟩)) ∧
    ((List.range 16).map
        (fun channel => (⟨0, [0xB0 + channel, 0x7B]⟩ : Out))).length = 16 ∧
    ((List.range 16).map (fun channel => (⟨0, [0xB0 + channel, 0x7B]⟩ : Out))).all
        (fun o => decide (o.offset = 0) && decide (o.msg.length = 2)
          && decide (o.msg.length ≠ 3)) = true := by
  refine ⟨rfl, by decide, by decide⟩

lemma rceil_five_eighths : rceil (5/8) = 1 := by
  norm_num [rceil]
  decide

/-- C2:  appending a matching loop to a PLAYING looper raises nothing, and the
state flag still reads PLAYING, but the pause is NOT fully undone:  `stop()`
left `state` at PLAYING, so `Pause.__exit__`'s `play()` returns immediately
and the stop-drain callback stays installed; the next per-block advance
performs the all-notes-off drain and goes INACTIVE instead of emitting
scheduled events. -/
theorem append_loop_while_playing_leaves_stop_callback :
    (looperP.append_loop loopC).2 = none ∧
    (looperP.append_loop loopC).1.state = .PLAYING ∧
    (looperP.append_loop loopC).1.callback = .stopCB ∧
    ((looperP.append_loop loopC).1.process_callback 1).map (fun p => p.1.state)
      = some .INACTIVE ∧
    ((looperP.append_loop loopC).1.process_callback 1).map (fun p => p.2)
      = some ((List.range 16).map (fun channel => ⟨0, [0xB0 + channel, 0x7B]⟩)) := by
  have hre : (looperP.append_loop loopC)
      = ({ looperP with callback := .stopCB, loops := [loopA, loopC] }, none) := by
    simp [Looper.append_loop, pauseAndMutate, Looper.remeasure, Looper.stop,
      Looper.play, pauseExit, looperP, loopA, loopC, Loop.last_beat, optionList]
    norm_num [List.max?, List.foldl, max_def, rceil_five_eighths]
  rw [hre]
  refine ⟨rfl, rfl, rfl, rfl, rfl⟩

/-! ## Claim C4 -/

/-- C4 counterexample:  calling `extend_loops` on an empty Looper with a list
whose loops disagree among themselves raises the mismatch error and leaves
`loops` unchanged, but `beats_per_measure` has already been assigned from the
first loop — the observable state is NOT unchanged. -/
theorem extend_loops_empty_mismatch_sets_bpm :
    (looper0.extend_loops [loopA, loopB3]).2 = some "beats_per_measure mismatch" ∧
    (looper0.extend_loops [loopA, loopB3]).1.loops = [] ∧
    (looper0.extend_loops [loopA, loopB3]).1.beats_per_measure = some 4 ∧
    looper0.beats_per_measure = none :=
  ⟨rfl, rfl, rfl, rfl⟩

/-- C4 (amended):  with a `beats_per_measure` already established (the looper
holds at least one loop), `append_loop` and `extend_loops` reject a mismatch
atomically, leaving the looper exactly as it was; `extend_loops` on a looper
without an established `beats_per_measure` still rejects an internally
disagreeing list and leaves `loops` unchanged, but `beats_per_measure` comes
out assigned to the first loop's value. -/
theorem mismatch_rejection_behavior :
    (∀ (st : Looper) (l : Loop) (b : ℕ), st.beats_per_measure = some b →
        l.beats_per_measure ≠ b →
        st.append_loop l = (st, some "beats_per_measure mismatch")) ∧
    (∀ (st : Looper) (ls : List Loop) (b : ℕ), st.beats_per_measure = some b →
        (∃ l ∈ ls, l.beats_per_measure ≠ b) →
        st.extend_loops ls = (st, some "beats_per_measure mismatch")) ∧
    (∀ (st : Looper) (l0 : Loop) (rest : List Loop), st.beats_per_measure = none →
        (∃ l ∈ l0 :: rest, l.beats_per_measure ≠ l0.beats_per_measure) →
        st.extend_loops (l0 :: rest)
          = ({ st with beats_per_measure := some l0.beats_per_measure },
             some "beats_per_measure mismatch")) := by
  refine ⟨?_, ?_, ?_⟩
  · intro st l b hb hne
    rw [Looper.append_loop, hb]
    simp [hne]
  · intro st ls b hb hex
    have hany : ls.any (fun l => decide (l.beats_per_measure ≠ b)) = true := by
      rw [List.any_eq_true]
      rcases hex with ⟨l, hl, hne⟩
      exact ⟨l, hl, by simpa using hne⟩
    rw [Looper.extend_loops.eq_def, hb]
    dsimp only
    rw [if_pos hany]
  · intro st l0 rest hb hex
    have hany : (l0 :: rest).any
        (fun l => decide (l.beats_per_measure ≠ l0.beats_per_measure)) = true := by
      rw [List.any_eq_true]
      rcases hex with ⟨l, hl, hne⟩
      exact ⟨l, hl, by simpa using hne⟩
    rw [Looper.extend_loops.eq_def, hb]
    dsimp only
    rw [if_pos hany]

theorem mismatch_rejection_behavior_witness :
    looperP.append_loop loopB3 = (looperP, some "beats_per_measure mismatch") ∧
    looperP.extend_loops [loopB3] = (looperP, some "beats_per_measure mismatch") ∧
    looper0.extend_loops [loopA, loopB3]
      = ({ looper0 with beats_per_measure := some 4 },
         some "beats_per_measure mismatch") :=
  ⟨mismatch_rejection_behavior.1 looperP loopB3 4 rfl (by decide),
   mismatch_rejection_behavior.2.1 looperP [loopB3] 4 rfl
     ⟨loopB3, List.mem_cons_self loopB3 [], by decide⟩,
   mismatch_rejection_behavior.2.2 looper0 loopA [loopB3] rfl
     ⟨loopB3, List.mem_cons_of_mem loopA (List.mem_cons_self loopB3 []), by decide⟩⟩

/-! ## Claim C6 -/

/-- A message list with zero note-on events. -/
def c6msgs : List Msg := [⟨.other, 1⟩]

/-- C6 counterexample:  a well-formed input containing zero note-on events is
accepted by the importer — it returns a result with an empty event array and
`measures = 1` instead of failing with an import error. -/
theorem import_succeeds_with_zero_note_ons :
    read_midi_file c6msgs = .ok ⟨4, 1, [], []⟩ := by
  have h1 : importLoop c6msgs impInit = .ok { impInit with time := impInit.time + 1 } := rfl
  rw [read_midi_file, h1]
  norm_num [Except.map, impInit, pyInt, DEFAULT_BEATS_PER_MEASURE]

lemma importStep_preserves_of_not_noteon (s : ImpState) (m : Msg) (s2 : ImpState)
    (h : importStep s m = .ok s2) (hno : m.isNoteOn = false) :
    s2.events = s.events ∧ s2.pitches = s.pitches ∧ s2.measure = s.measure := by
  cases hk : m.kind with
  | set_tempo t =>
      simp only [importStep, hk] at h
      cases h
      exact ⟨rfl, rfl, rfl⟩
  | time_signature nu de =>
      simp only [importStep, hk] at h
      split at h
      · cases h
      · cases h
        exact ⟨rfl, rfl, rfl⟩
  | note_on note bytes =>
      simp [Msg.isNoteOn, hk] at hno
  | other =>
      simp only [importStep, hk] at h
      cases h
      exact ⟨rfl, rfl, rfl⟩

lemma importLoop_no_noteon (msgs : List Msg) : ∀ (s r : ImpState),
    importLoop msgs s = .ok r → (∀ m ∈ msgs, m.isNoteOn = false) →
    r.events = s.events ∧ r.pitches = s.pitches ∧ r.measure = s.measure := by
  induction msgs with
  | nil =>
      intro s r h _
      cases h
      exact ⟨rfl, rfl, rfl⟩
  | cons m ms ih =>
      intro s r h hno
      have hm := hno m (List.mem_cons_self m ms)
      have hms : ∀ m2 ∈ ms, m2.isNoteOn = false :=
        fun m2 hm2 => hno m2 (List.mem_cons_of_mem m hm2)
      rw [importLoop] at h
      cases himp : importStep s m with
      | error e => rw [himp] at h; cases h
      | ok s2 =>
          rw [himp] at h
          have hstep := importStep_preserves_of_not_noteon s m s2 himp hm
          have hrest := ih s2 r h hms
          exact ⟨hrest.1.trans hstep.1, hrest.2.1.trans hstep.2.1,
            hrest.2.2.trans hstep.2.2⟩

/-- C6 (amended):  the importer does not report zero note-on events as an
error:  whenever it returns at all on a note-on-free input, the result carries
an empty event array, an empty pitch set, and `measures = 1`; the caller gets
a result, not an `ImportError`. -/
theorem import_zero_note_ons_returns_empty (msgs : List Msg) (r : ImportResult)
    (hok : read_midi_file msgs = .ok r) (hno : ∀ m ∈ msgs, m.isNoteOn = false) :
    r.events = [] ∧ r.measures = 1 ∧ r.pitches = [] := by
  rw [read_midi_file] at hok
  cases himp : importLoop msgs impInit with
  | error e =>
      rw [himp] at hok
      cases hok
  | ok s =>
      rw [himp] at hok
      simp only [Except.map] at hok
      cases hok
      have hpre := importLoop_no_noteon msgs impInit s himp hno
      refine ⟨hpre.1, ?_, ?_⟩
      · rw [hpre.2.2]
        rfl
      · rw [hpre.2.1]
        rfl

theorem import_zero_note_ons_returns_empty_witness :
    read_midi_file c6msgs = .ok ⟨4, 1, [], []⟩ ∧
    (ImportResult.mk 4 1 [] []).events = [] ∧
    (ImportResult.mk 4 1 [] []).measures = 1 ∧
    (ImportResult.mk 4 1 [] []).pitches = [] := by
  have hok : read_midi_file c6msgs = .ok ⟨4, 1, [], []⟩ := by
    have h1 : importLoop c6msgs impInit = .ok { impInit with time := impInit.time + 1 } := rfl
    rw [read_midi_file, h1]
    norm_num [Except.map, impInit, pyInt, DEFAULT_BEATS_PER_MEASURE]
  have hres := import_zero_note_ons_returns_empty c6msgs ⟨4, 1, [], []⟩ hok
    (by intro m hm; simp [c6msgs] at hm; rw [hm]; rfl)
  exact ⟨hok, hres.1, hres.2.1, hres.2.2⟩

/-! ## Claim C7 -/

lemma playWhile_cycle_zero :
    ∀ (fuel : ℕ) (st : Looper) (wend : ℚ) (acc : List Out),
      st.last_beat = 0 → 0 ≤ wend → playWhile st wend acc fuel = none := by
  intro fuel
  induction fuel with
  | zero => intro st wend acc _ _; rfl
  | succ n ih =>
      intro st wend acc h hw
      rw [playWhile]
      rw [h, sub_zero, if_neg (not_lt.mpr hw)]
      exact ih _ wend _ rfl hw

/-- C7:  the per-block advance does NOT always terminate.  Appending `loopZ`
(whose single event sits at beat 0) gives a looper whose loaded cycle length
is 0; with that loop armed, `play_process_callback`'s `while True:` loop never
exits — `window_end` is never reduced and never drops below 0 — so no amount
of fuel completes it, contradicting the claimed
`ceil(beats_per_block / cycle_length) + 1` bound and the claimed silent
handling of `cycle_length == 0`. -/
theorem play_advance_nonterminating_when_cycle_zero :
    (looper0.append_loop loopZ).1.last_beat = 0 ∧
    (looper0.append_loop loopZ).1.loops = [loopZ] ∧
    (∀ fuel : ℕ, looperZ.process_callback fuel = none) := by
  have happ : looper0.append_loop loopZ
      = ({ bpm := 120, beats_per_measure := some 4, beat := 0, last_beat := 0,
           loops := [loopZ], state := .INACTIVE, callback := .nullCB,
           samples_per_beat := 24000, beats_per_process := 16/375 }, none) := by
    simp [Looper.append_loop, pauseAndMutate, Looper.remeasure, Looper.stop,
      Looper.play, pauseExit, looper0, loopZ, Loop.last_beat, optionList]
    norm_num [List.max?, List.foldl, rceil]
  refine ⟨?_, ?_, ?_⟩
  · rw [happ]
  · rw [happ]
  intro fuel
  have hcb : looperZ.process_callback fuel = looperZ.play_process_callback fuel := rfl
  rw [hcb, Looper.play_process_callback]
  have hact : looperZ.any_loop_active = true := rfl
  rw [hact, if_pos rfl]
  exact playWhile_cycle_zero fuel looperZ (looperZ.beat + looperZ.beats_per_process) []
    rfl (by norm_num [looperZ])

/-! ## Claim C5 -/

/-- A MIDI stream whose tempo slows mid-file:  two notes at the default tempo,
a `set_tempo` to 2000000 µs/beat, then a third note whose computed beat falls
back below the second note's beat. -/
def c5msgs : List Msg :=
  [⟨.note_on 60 [0x90, 60, 100], 1⟩,
   ⟨.note_on 62 [0x90, 62, 100], 0⟩,
   ⟨.set_tempo 2000000, 0⟩,
   ⟨.note_on 64 [0x90, 64, 100], 0⟩]

/-- The importer's result on `c5msgs`. -/
def c5result : ImportResult :=
  ⟨4, 1, [60, 62, 64],
   [⟨0, [0x90, 60, 100]⟩, ⟨2, [0x90, 62, 100]⟩, ⟨1/2, [0x90, 64, 100]⟩]⟩

lemma c5step1 : importStep impInit ⟨.note_on 60 [0x90, 60, 100], 1⟩
    = .ok ⟨500000, 4, 1/2, 2, 1, 0, [60], [⟨0, [0x90, 60, 100]⟩]⟩ := by
  norm_num [importStep, impInit, pyInt, DEFAULT_USECS_PER_BEAT, USECS_PER_SECOND,
    DEFAULT_BEATS_PER_MEASURE]

lemma c5step2 : importStep ⟨500000, 4, 1/2, 2, 1, 0, [60], [⟨0, [0x90, 60, 100]⟩]⟩
      ⟨.note_on 62 [0x90, 62, 100], 0⟩
    = .ok ⟨500000, 4, 1/2, 2, 1, 0, [60, 62],
        [⟨0, [0x90, 60, 100]⟩, ⟨2, [0x90, 62, 100]⟩]⟩ := by
  norm_num [importStep, pyInt]
  decide

lemma c5step3 : importStep ⟨500000, 4, 1/2, 2, 1, 0, [60, 62],
      [⟨0, [0x90, 60, 100]⟩, ⟨2, [0x90, 62, 100]⟩]⟩ ⟨.set_tempo 2000000, 0⟩
    = .ok ⟨2000000, 4, 2, 8, 1, 0, [60, 62],
        [⟨0, [0x90, 60, 100]⟩, ⟨2, [0x90, 62, 100]⟩]⟩ := by
  norm_num [importStep, USECS_PER_SECOND]

lemma c5step4 : importStep ⟨2000000, 4, 2, 8, 1, 0, [60, 62],
      [⟨0, [0x90, 60, 100]⟩, ⟨2, [0x90, 62, 100]⟩]⟩ ⟨.note_on 64 [0x90, 64, 100], 0⟩
    = .ok ⟨2000000, 4, 2, 8, 1, 0, [60, 62, 64],
        [⟨0, [0x90, 60, 100]⟩, ⟨2, [0x90, 62, 100]⟩, ⟨1/2, [0x90, 64, 100]⟩]⟩ := by
  norm_num [importStep, pyInt]
  decide

/-- C5 counterexample:  the importer accepts `c5msgs`, and the returned event
sequence has beats `0, 2, 1/2` — NOT non-decreasing:  the tempo change makes
the third note's beat (`time / seconds_per_beat` with the new, larger
`seconds_per_beat`) fall below the second note's. -/
theorem import_beats_decrease_after_tempo_change :
    read_midi_file c5msgs = .ok c5result ∧ ¬ beatsNondecreasing c5result.events := by
  constructor
  · have hloop : importLoop c5msgs impInit
        = .ok ⟨2000000, 4, 2, 8, 1, 0, [60, 62, 64],
            [⟨0, [0x90, 60, 100]⟩, ⟨2, [0x90, 62, 100]⟩, ⟨1/2, [0x90, 64, 100]⟩]⟩ := by
      simp only [c5msgs, importLoop, c5step1, c5step2, c5step3, c5step4]
    rw [read_midi_file, hloop]
    simp only [Except.map, Except.ok.injEq]
    norm_num [c5result, pyInt, List.dedup]
  · norm_num [beatsNondecreasing, c5result, List.chain'_cons]

lemma beatsNondecreasing_concat (es : List Event) (e : Event)
    (h1 : beatsNondecreasing es) (h2 : ∀ x ∈ es, x.beat ≤ e.beat) :
    beatsNondecreasing (es ++ [e]) := by
  rw [beatsNondecreasing, List.chain'_append]
  refine ⟨h1, List.chain'_singleton e, ?_⟩
  intro x hx y hy
  obtain ⟨hne, rfl⟩ := List.mem_getLast?_eq_getLast hx
  have hxm := List.getLast_mem hne
  have hye : e = y := by
    simpa using hy
  rw [← hye]
  exact h2 _ hxm

lemma importLoop_nondecreasing (msgs : List Msg) : ∀ (s r : ImpState),
    importLoop msgs s = .ok r →
    (∀ m ∈ msgs, m.isSetTempo = false) →
    (∀ m ∈ msgs, 0 ≤ m.time) →
    0 < s.seconds_per_beat →
    beatsNondecreasing s.events →
    (∀ e ∈ s.events, e.beat ≤ s.time / s.seconds_per_beat) →
    beatsNondecreasing r.events := by
  induction msgs with
  | nil =>
      intro s r h _ _ _ hch _
      cases h
      exact hch
  | cons m ms ih =>
      intro s r h hnt hdt hspb hch hub
      have hm_nt := hnt m (List.mem_cons_self m ms)
      have hm_dt := hdt m (List.mem_cons_self m ms)
      have hnt2 : ∀ m2 ∈ ms, m2.isSetTempo = false :=
        fun m2 hm2 => hnt m2 (List.mem_cons_of_mem m hm2)
      have hdt2 : ∀ m2 ∈ ms, 0 ≤ m2.time :=
        fun m2 hm2 => hdt m2 (List.mem_cons_of_mem m hm2)
      rw [importLoop] at h
      cases himp : importStep s m with
      | error e =>
          rw [himp] at h
          cases h
      | ok s2 =>
          rw [himp] at h
          have hdiv : s.time / s.seconds_per_beat
              ≤ (s.time + m.time) / s.seconds_per_beat :=
            (div_le_div_iff_of_pos_right hspb).mpr (by linarith)
          cases hk : m.kind with
          | set_tempo t =>
              simp [Msg.isSetTempo, hk] at hm_nt
          | time_signature nu de =>
              simp only [importStep, hk] at himp
              split at himp
              · cases himp
              · cases himp
                exact ih _ r h hnt2 hdt2 hspb hch
                  (fun e he => le_trans (hub e he) hdiv)
          | note_on note bytes =>
              simp only [importStep, hk] at himp
              split at himp
              · cases himp
              · split at himp
                · cases himp
                · cases himp
                  refine ih _ r h hnt2 hdt2 hspb ?_ ?_
                  · exact beatsNondecreasing_concat _ _ hch (fun x hx => hub x hx)
                  · intro e he
                    rcases List.mem_append.mp he with he1 | he2
                    · exact le_trans (hub e he1) hdiv
                    · rcases List.mem_singleton.mp he2 with rfl
                      exact hdiv
          | other =>
              simp only [importStep, hk] at himp
              cases himp
              exact ih _ r h hnt2 hdt2 hspb hch
                (fun e he => le_trans (hub e he) hdiv)

/-- C5 (amended):  the imported event sequence is non-decreasing in `beat`
for every accepted file that contains no tempo meta-event (`seconds_per_beat`
constant and positive) and whose message deltas are non-negative; with a
mid-stream tempo change the beats can decrease (each note's beat is
`time / seconds_per_beat` with the `seconds_per_beat` in effect at that
point, never rescaled retroactively). -/
theorem import_beats_nondecreasing_without_tempo_change
    (msgs : List Msg) (r : ImportResult)
    (hok : read_midi_file msgs = .ok r)
    (hnt : ∀ m ∈ msgs, m.isSetTempo = false)
    (hdt : ∀ m ∈ msgs, 0 ≤ m.time) :
    beatsNondecreasing r.events := by
  rw [read_midi_file] at hok
  cases himp : importLoop msgs impInit with
  | error e =>
      rw [himp] at hok
      cases hok
  | ok s =>
      rw [himp] at hok
      simp only [Except.map] at hok
      cases hok
      exact importLoop_nondecreasing msgs impInit s himp hnt hdt
        (by norm_num [impInit, DEFAULT_USECS_PER_BEAT, USECS_PER_SECOND])
        (List.chain'_nil)
        (by intro e he; cases he)

/-- A note-on-bearing stream with a time-signature change but no tempo
change. -/
def c5wmsgs : List Msg :=
  [⟨.note_on 60 [0x90, 60, 100], 1⟩,
   ⟨.time_signature 3 4, 0⟩,
   ⟨.note_on 64 [0x90, 64, 100], 0⟩]

lemma c5wstep2 : importStep ⟨500000, 4, 1/2, 2, 1, 0, [60], [⟨0, [0x90, 60, 100]⟩]⟩
      ⟨.time_signature 3 4, 0⟩
    = .ok ⟨500000, 3, 1/2, 3/2, 1, 0, [60], [⟨0, [0x90, 60, 100]⟩]⟩ := by
  norm_num [importStep]

lemma c5wstep3 : importStep ⟨500000, 3, 1/2, 3/2, 1, 0, [60], [⟨0, [0x90, 60, 100]⟩]⟩
      ⟨.note_on 64 [0x90, 64, 100], 0⟩
    = .ok ⟨500000, 3, 1/2, 3/2, 1, 0, [60, 64],
        [⟨0, [0x90, 60, 100]⟩, ⟨2, [0x90, 64, 100]⟩]⟩ := by
  norm_num [importStep, pyInt]
  decide

theorem import_beats_nondecreasing_without_tempo_change_witness :
    read_midi_file c5wmsgs
      = .ok ⟨3, 1, [60, 64], [⟨0, [0x90, 60, 100]⟩, ⟨2, [0x90, 64, 100]⟩]⟩ ∧
    beatsNondecreasing
      [(⟨0, [0x90, 60, 100]⟩ : Event), ⟨2, [0x90, 64, 100]⟩] := by
  have hok : read_midi_file c5wmsgs
      = .ok ⟨3, 1, [60, 64], [⟨0, [0x90, 60, 100]⟩, ⟨2, [0x90, 64, 100]⟩]⟩ := by
    have hloop : importLoop c5wmsgs impInit
        = .ok ⟨500000, 3, 1/2, 3/2, 1, 0, [60, 64],
            [⟨0, [0x90, 60, 100]⟩, ⟨2, [0x90, 64, 100]⟩]⟩ := by
      simp only [c5wmsgs, importLoop, c5step1, c5wstep2, c5wstep3]
    rw [read_midi_file, hloop]
    simp only [Except.map, Except.ok.injEq]
    norm_num [pyInt, List.dedup]
  refine ⟨hok, ?_⟩
  exact import_beats_nondecreasing_without_tempo_change c5wmsgs _ hok
    (by simp [c5wmsgs, Msg.isSetTempo])
    (by norm_num [c5wmsgs, List.forall_mem_cons])

/-! ## Claim C1 -/

lemma decide_or_eq (p q : Prop) [Decidable p] [Decidable q] :
    decide (p ∨ q) = (decide p || decide q) := by
  by_cases hp : p <;> by_cases hq : q <;> simp [hp, hq]

lemma pyInt_one : pyInt 1 = 1 := by
  norm_num [pyInt]

lemma pyInt_five : pyInt 5 = 5 := by
  norm_num [pyInt]

/-- C1 counterexample:  with `beats_per_process = 6 > cycle_length = 4`,
`beat = 2` and one armed loop holding a single event at beat `5/2`, the
per-block advance gathers the unclamped window `[2, 8)` first (emitting the
event) and then the wrapped window `[0, 4)` (emitting it AGAIN):  the single
event produces two writes, so the claimed clamping to
`min(window_end, cycle_length)` and the claimed exactly-once emission do not
hold of the code. -/
theorem wrap_block_emits_event_twice :
    looperW.process_callback 3
      = some ({ looperW with beat := 0 },
          [⟨1, [0x90, 60, 100]⟩, ⟨5, [0x90, 60, 100]⟩]) ∧
    loopA.events.length = 1 := by
  constructor
  · norm_num [Looper.process_callback, Looper.play_process_callback,
      Looper.any_loop_active, playWhile, Looper.gather, Loop.events_between,
      emitPass, sortByBeat, insertByBeat, pyInt_one, pyInt_five,
      looperW, loopA]
  · rfl

/-- C1 (amended):  a wrapping per-block advance runs exactly two gather
passes:  the unclamped pre-wrap window `[beat, beat + beats_per_process)`
and the wrapped window `[0, beat + beats_per_process - cycle_length)`; when
`beats_per_process ≤ cycle_length` those windows are disjoint, so every armed
event occurrence due in their union is emitted exactly once (the write count
equals the number of armed events in the union) and no event is emitted in
both passes; the advance ends with `beat = beat + beats_per_process -
cycle_length`.  (When `beats_per_process > cycle_length` the windows overlap
and events are emitted twice.) -/
theorem wrap_advance_exact_emission (st : Looper)
    (hcb : st.callback = .playCB)
    (hact : st.any_loop_active = true)
    (hc : 0 < st.last_beat)
    (hb0 : 0 ≤ st.beat) (hb1 : st.beat < st.last_beat)
    (hwrap : st.last_beat ≤ st.beat + st.beats_per_process)
    (hbpp : st.beats_per_process ≤ st.last_beat) :
    st.process_callback 2
      = some ({ st with beat := st.beat + st.beats_per_process - st.last_beat },
          emitPass st.beat st.samples_per_beat
              (st.gather st.beat (st.beat + st.beats_per_process))
            ++ emitPass 0 st.samples_per_beat
              (st.gather 0 (st.beat + st.beats_per_process - st.last_beat))) ∧
    (emitPass st.beat st.samples_per_beat
        (st.gather st.beat (st.beat + st.beats_per_process))
      ++ emitPass 0 st.samples_per_beat
        (st.gather 0 (st.beat + st.beats_per_process - st.last_beat))).length
      = ((armedEvents st).filter (fun e =>
          decide ((st.beat ≤ e.beat ∧ e.beat < st.beat + st.beats_per_process) ∨
            (0 ≤ e.beat ∧ e.beat < st.beat + st.beats_per_process - st.last_beat)))).length ∧
    (∀ e : Event,
      ¬((st.beat ≤ e.beat ∧ e.beat < st.beat + st.beats_per_process) ∧
        (0 ≤ e.beat ∧ e.beat < st.beat + st.beats_per_process - st.last_beat))) := by
  have hnb : ¬(st.beat + st.beats_per_process < st.last_beat) := not_lt.mpr hwrap
  have hb2 : st.beat + st.beats_per_process - st.last_beat < st.last_beat :=
    lt_of_le_of_lt (by linarith) hb1
  have hdisj : ∀ e : Event,
      ¬((st.beat ≤ e.beat ∧ e.beat < st.beat + st.beats_per_process) ∧
        (0 ≤ e.beat ∧ e.beat < st.beat + st.beats_per_process - st.last_beat)) := by
    rintro e ⟨⟨h1, _⟩, ⟨_, h4⟩⟩
    have : e.beat < st.beat := lt_of_lt_of_le h4 (by linarith)
    linarith
  refine ⟨?_, ?_, hdisj⟩
  · have h0 : st.process_callback 2 = st.play_process_callback 2 := by
      rw [Looper.process_callback.eq_def, hcb]
    rw [h0, Looper.play_process_callback, hact, if_pos rfl]
    rw [playWhile, if_neg hnb, playWhile, if_pos hb2]
    rw [List.nil_append]
    rfl
  · rw [List.length_append, length_emitPass, length_emitPass,
      gather_eq_filter_armedEvents, gather_eq_filter_armedEvents,
      ← List.countP_eq_length_filter, ← List.countP_eq_length_filter,
      ← List.countP_eq_length_filter]
    have hd2 : ∀ x ∈ armedEvents st,
        ¬((fun e => decide (st.beat ≤ e.beat ∧ e.beat < st.beat + st.beats_per_process)) x = true ∧
          (fun e => decide (0 ≤ e.beat ∧ e.beat < st.beat + st.beats_per_process - st.last_beat)) x = true) := by
      intro x _ hx
      refine hdisj x ?_
      exact ⟨of_decide_eq_true hx.1, of_decide_eq_true hx.2⟩
    have hco := countP_or_of_disjoint
      (fun e => decide (st.beat ≤ e.beat ∧ e.beat < st.beat + st.beats_per_process))
      (fun e => decide (0 ≤ e.beat ∧ e.beat < st.beat + st.beats_per_process - st.last_beat))
      (armedEvents st) hd2
    rw [← hco]
    congr 1
    funext e
    rw [decide_or_eq]

/-- A loop with one event at beat `7/2`, armed. -/
def loopV : Loop :=
  { loop_id := 6, beats_per_measure := 4, measures := 1,
    events := [⟨7/2, [0x90, 40, 100]⟩], beat_offset := 0, play := true }

/-- A playing looper about to wrap with `beats_per_process = 2 ≤ cycle_length
= 4`:  beat 3, so the advance window `[3, 5)` wraps to `[0, 1)`. -/
def looperV : Looper :=
  { bpm := 120, beats_per_measure := some 4, beat := 3, last_beat := 4,
    loops := [loopV], state := .PLAYING, callback := .playCB,
    samples_per_beat := 2, beats_per_process := 2 }

theorem wrap_advance_exact_emission_witness :
    looperV.process_callback 2
      = some ({ looperV with
            beat := looperV.beat + looperV.beats_per_process - looperV.last_beat },
          emitPass looperV.beat looperV.samples_per_beat
              (looperV.gather looperV.beat (looperV.beat + looperV.beats_per_process))
            ++ emitPass 0 looperV.samples_per_beat
              (looperV.gather 0
                (looperV.beat + looperV.beats_per_process - looperV.last_beat))) ∧
    (emitPass looperV.beat looperV.samples_per_beat
        (looperV.gather looperV.beat (looperV.beat + looperV.beats_per_process))
      ++ emitPass 0 looperV.samples_per_beat
        (looperV.gather 0
          (looperV.beat + looperV.beats_per_process - looperV.last_beat))).length
      = ((armedEvents looperV).filter (fun e =>
          decide ((looperV.beat ≤ e.beat ∧
              e.beat < looperV.beat + looperV.beats_per_process) ∨
            (0 ≤ e.beat ∧
              e.beat < looperV.beat + looperV.beats_per_process - looperV.last_beat)))).length ∧
    (∀ e : Event,
      ¬((looperV.beat ≤ e.beat ∧ e.beat < looperV.beat + looperV.beats_per_process) ∧
        (0 ≤ e.beat ∧
          e.beat < looperV.beat + looperV.beats_per_process - looperV.last_beat))) :=
  wrap_advance_exact_emission looperV rfl rfl
    (by norm_num [looperV]) (by norm_num [looperV]) (by norm_num [looperV])
    (by norm_num [looperV]) (by norm_num [looperV])
